import Mathlib

/-!
Shallow embedding of the `telnet_server` repository (Rust) and proofs about it.

Source files embedded:
* `src/iter.rs`    — generic sequence search (`contains_sequence`, `dequeue`);
* `src/telnet.rs`  — the Telnet session state machine (`TelnetSession`,
  `accept_data`, the per-state update functions, `erase_current_line`);
* `src/tcp.rs`     — the per-connection loop of `create_tcp_server`;
* `src/main.rs`    — the message-accumulation read loop of `handle_client`.

Bytes (`u8`) are modelled as `Nat` (all literals in play are below 256);
`Vec<char>` is `List Char`; `Option<Vec<u8>>` is `Option (List Nat)`.
-/

/-! ## Sequence matcher (src/iter.rs) -/

/-- Inner loop of `contains_sequence`: does `needle` match `haystack` when laid
at offset `haystack_start`?  The Rust loop checks
`haystack[needle_index + haystack_start] != needle[needle_index]` for each
`needle_index`; with the offsets that `contains_sequence` supplies, every index
is in bounds, so comparing the optional lookups is an exact rendering. -/
def sequence_matches_at {α : Type} [DecidableEq α]
    (haystack needle : List α) (haystack_start : Nat) : Bool :=
  (List.range needle.length).all fun needle_index =>
    haystack[needle_index + haystack_start]? == needle[needle_index]?

/-- `contains_sequence` from src/iter.rs: whether `needle` occurs contiguously
in `haystack`, with the source's two explicit early returns (needle longer
than haystack, and empty haystack). -/
def contains_sequence {α : Type} [DecidableEq α] (haystack needle : List α) : Bool :=
  let haystack_len := haystack.length
  let needle_len := needle.length
  if needle_len > haystack_len then
    false
  else if haystack_len = 0 then
    false
  else
    let size_diff := haystack_len - needle_len
    (List.range (size_diff + 1)).any fun haystack_start =>
      sequence_matches_at haystack needle haystack_start

/-- `dequeue` from src/iter.rs: remove and return the first element. -/
def dequeue {α : Type} (vec : List α) : Option α × List α :=
  match vec with
  | [] => (none, [])
  | x :: rest => (some x, rest)

/-! ## Telnet session engine (src/telnet.rs) -/

def CHAR_ECHO : Nat := 1
def CHAR_BEL : Nat := 7
def CHAR_BACK_SPACE : Nat := 8
def CHAR_ESCAPE : Nat := 27
def CHAR_DELETE : Nat := 127
def CHAR_SUB_NEGOTIATION_END : Nat := 240
def CHAR_ERASE_CHARACTER : Nat := 247
def CHAR_ERASE_LINE : Nat := 248
def CHAR_SUB_NEGOTIATION : Nat := 250
def CHAR_WILL : Nat := 251
def CHAR_WONT : Nat := 252
def CHAR_DO : Nat := 253
def CHAR_DONT : Nat := 254
def CHAR_IAC : Nat := 255

def CHARS_LINE_BREAK : List Char := ['\r', '\n']

/-- May identify the end of an ANSI escape sequence. -/
def CHARS_ESCAPE_SEQUENCE_END : List Char :=
  ['A', 'B', 'C', 'D', 'E', 'F', 'G', 'H', 'J', 'K',
   'S', 'T', 'f', 'm', 'i', 'n', 's', 'u', 'h', 'l']

/-- States of a `TelnetSession` on the server side. -/
inductive TelnetState
  | Idle
  | Command
  | CommandWill
  | CommandWont
  | CommandDo
  | CommandDont
  | SubNegotiation
  | AnsiEscapeSequence
deriving DecidableEq

/-- Telnet session state machine: data buffer, pending byte stream, parser
state and echo flag. -/
structure TelnetSession where
  data : List Char
  stream : List Nat
  state : TelnetState
  is_echoing : Bool
deriving DecidableEq

/-- `erase_current_line` from src/telnet.rs: pop characters from the end of the
buffer until its last two characters contain the CR LF pair, clearing the
buffer entirely once fewer than two characters are left. -/
def erase_current_line (buffer : List Char) : List Char :=
  if buffer.length < 2 then
    []
  else
    let start_index := buffer.length - 2
    if contains_sequence (buffer.drop start_index) CHARS_LINE_BREAK then
      buffer
    else
      erase_current_line buffer.dropLast
termination_by buffer.length
decreasing_by
  simp [List.length_dropLast]
  omega

/-- `update_session_idle`: dispatch one byte in the `Idle` state. -/
def update_session_idle (session : TelnetSession) (next : Nat) :
    TelnetSession × Option (List Nat) :=
  if next = CHAR_IAC then
    ({ session with state := TelnetState.Command }, none)
  else if next = CHAR_DELETE ∨ next = CHAR_BACK_SPACE ∨ next = CHAR_ERASE_CHARACTER then
    let session := { session with data := session.data.dropLast }
    if session.is_echoing then
      /- Return fake backspace on echo mode -/
      (session, some [CHAR_BACK_SPACE, 32, CHAR_BACK_SPACE])
    else
      (session, none)
  else if next = CHAR_ERASE_LINE then
    ({ session with data := erase_current_line session.data }, none)
  else if next = CHAR_ESCAPE then
    ({ session with state := TelnetState.AnsiEscapeSequence }, none)
  else
    let session := { session with data := session.data ++ [Char.ofNat next] }
    if session.is_echoing then
      (session, some [next])
    else
      (session, none)

/-- `update_session_command`: dispatch one byte in the `Command` state.  An
unrecognized command byte is only logged; the session is left unchanged. -/
def update_session_command (session : TelnetSession) (next : Nat) :
    TelnetSession × Option (List Nat) :=
  if next = CHAR_WILL then
    ({ session with state := TelnetState.CommandWill }, none)
  else if next = CHAR_WONT then
    ({ session with state := TelnetState.CommandWont }, none)
  else if next = CHAR_DO then
    ({ session with state := TelnetState.CommandDo }, none)
  else if next = CHAR_DONT then
    ({ session with state := TelnetState.CommandDont }, none)
  else if next = CHAR_SUB_NEGOTIATION then
    ({ session with state := TelnetState.SubNegotiation }, none)
  else
    (session, none)

/-- `update_session_will`: ignore the option byte, go back to idle. -/
def update_session_will (session : TelnetSession) (_next : Nat) :
    TelnetSession × Option (List Nat) :=
  ({ session with state := TelnetState.Idle }, none)

/-- `update_session_wont`: ignore the option byte, go back to idle. -/
def update_session_wont (session : TelnetSession) (_next : Nat) :
    TelnetSession × Option (List Nat) :=
  ({ session with state := TelnetState.Idle }, none)

/-- `update_session_do`: on DO ECHO enable echoing and answer WILL ECHO; any
other option is refused with WONT. -/
def update_session_do (session : TelnetSession) (next : Nat) :
    TelnetSession × Option (List Nat) :=
  let session := { session with state := TelnetState.Idle }
  if next = CHAR_ECHO then
    ({ session with is_echoing := true }, some [CHAR_IAC, CHAR_WILL, CHAR_ECHO])
  else
    (session, some [CHAR_IAC, CHAR_WONT, next])

/-- `update_session_dont`: on DONT ECHO disable echoing; every option is
acknowledged with WONT. -/
def update_session_dont (session : TelnetSession) (next : Nat) :
    TelnetSession × Option (List Nat) :=
  let session := { session with state := TelnetState.Idle }
  let session :=
    if next = CHAR_ECHO then { session with is_echoing := false } else session
  (session, some [CHAR_IAC, CHAR_WONT, next])

/-- `update_session_sub_negotiation`: discard bytes until the sub-negotiation
end byte. -/
def update_session_sub_negotiation (session : TelnetSession) (next : Nat) :
    TelnetSession × Option (List Nat) :=
  if next = CHAR_SUB_NEGOTIATION_END then
    ({ session with state := TelnetState.Idle }, none)
  else
    (session, none)

/-- `update_session_escape_sequence`: discard bytes until a terminator of an
ANSI escape sequence is seen, then ring the bell. -/
def update_session_escape_sequence (session : TelnetSession) (next : Nat) :
    TelnetSession × Option (List Nat) :=
  if CHARS_ESCAPE_SEQUENCE_END.contains (Char.ofNat next) then
    ({ session with state := TelnetState.Idle }, some [CHAR_BEL])
  else
    (session, none)

/-- One step of the `accept_data` dispatch loop (the `match self.state`
block). -/
def update_session (session : TelnetSession) (next : Nat) :
    TelnetSession × Option (List Nat) :=
  match session.state with
  | TelnetState.Idle => update_session_idle session next
  | TelnetState.Command => update_session_command session next
  | TelnetState.CommandWill => update_session_will session next
  | TelnetState.CommandWont => update_session_wont session next
  | TelnetState.CommandDo => update_session_do session next
  | TelnetState.CommandDont => update_session_dont session next
  | TelnetState.SubNegotiation => update_session_sub_negotiation session next
  | TelnetState.AnsiEscapeSequence => update_session_escape_sequence session next

/-- The `while let Some(next) = dequeue(&mut self.stream)` loop of
`accept_data`.  None of the per-state update functions reads or writes the
pending stream, so the loop is equivalent to folding `update_session` over the
queued bytes in order, concatenating the response fragments. -/
def run_bytes (session : TelnetSession) : List Nat → TelnetSession × List Nat
  | [] => (session, [])
  | next :: rest =>
      let step := update_session session next
      let tail := run_bytes step.1 rest
      (tail.1, step.2.getD [] ++ tail.2)

/-- `TelnetSession::accept_data`: append the incoming bytes to the pending
stream, consume the whole stream through the state machine, and return the
concatenated response if it is non-empty. -/
def accept_data (session : TelnetSession) (data : List Nat) :
    TelnetSession × Option (List Nat) :=
  let result := run_bytes { session with stream := [] } (session.stream ++ data)
  if result.2 = [] then
    (result.1, none)
  else
    (result.1, some result.2)

/-- `TelnetSession::create`: fresh session, idle, echo off. -/
def TelnetSession.create : TelnetSession :=
  { data := [], stream := [], state := TelnetState.Idle, is_echoing := false }

/-! ## Connection layers (src/tcp.rs and src/main.rs)

A read from the socket is modelled as `Option (List Nat)`: `some chunk` for
`Ok(read_bytes)` together with the bytes read (`chunk = []` for `Ok(0)`, the
peer-initiated close), `none` for `Err(_)`.  A finite list of such reads is
the trace a connection delivers; blocking forever on `read` is modelled by the
trace running out. -/

/-- Outcome of the message-accumulation loop in `handle_client`
(src/main.rs, the `'read_buffer` loop). -/
inductive MessageReadResult
  | message (content : List Nat)
  | overflow
  | readFailed
  | starved
deriving DecidableEq

/-- The `'read_buffer` loop of `handle_client` in src/main.rs: read into a
100-byte buffer, append to `message`; a short read (fewer than 100 bytes)
completes the message; after any full read, a `message` longer than
`MAX_MESSAGE_SIZE = 4096` shuts the connection down with a buffer-overflow
error (`MessageReadResult.overflow`).  `starved` is the model artifact for a
trace that ends while the loop would still block on `read`. -/
def read_client_message : List (Option (List Nat)) → List Nat → MessageReadResult
  | [], _ => MessageReadResult.starved
  | none :: _, _ => MessageReadResult.readFailed
  | some chunk :: reads, message =>
      let message := message ++ chunk
      if chunk.length < 100 then
        MessageReadResult.message message
      else if message.length > 4096 then
        MessageReadResult.overflow
      else
        read_client_message reads message

/-- How the per-connection loop of `create_tcp_server` (src/tcp.rs) ends.
`overflow` is included so the loop can be compared with `handle_client`'s
buffer-overflow abort; the theorems show the tcp.rs loop never produces it. -/
inductive TcpLoopEnd
  | peerClosed
  | readFailed
  | writeFailed
  | overflow
  | starved
deriving DecidableEq

/-- The per-connection loop spawned by `create_tcp_server` in src/tcp.rs,
generic over the `TcpStreamHandler` (`accept`) like the Rust code: read up to
`MAX_MESSAGE_SIZE = 4096` bytes (`Ok(0)` shuts down and ends the thread),
hand the chunk to the handler, and write any answer back in full
(`write_ok` tells whether `write_all` succeeds).  Returns the chunks written
and how the loop ended.  There is no size accumulation and no overflow
branch: every chunk goes straight to the handler. -/
def tcp_client_loop {σ : Type} (accept : σ → List Nat → σ × Option (List Nat))
    (write_ok : List Nat → Bool) :
    List (Option (List Nat)) → σ → List (List Nat) × TcpLoopEnd
  | [], _ => ([], TcpLoopEnd.starved)
  | none :: _, _ => ([], TcpLoopEnd.readFailed)
  | some chunk :: reads, stream_handler =>
      if chunk.length = 0 then
        ([], TcpLoopEnd.peerClosed)
      else
        let step := accept stream_handler chunk
        match step.2 with
        | some answer =>
            if write_ok answer then
              let rest := tcp_client_loop accept write_ok reads step.1
              (answer :: rest.1, rest.2)
            else
              ([], TcpLoopEnd.writeFailed)
        | none =>
            tcp_client_loop accept write_ok reads step.1

/-! ## Spec-side restatement of line erase -/

/-- Line erase as the specification words it: repeatedly remove the last
character until the last two characters are exactly CR, LF (which are kept),
or the buffer has fewer than two characters, in which case it is cleared
entirely.  Stated independently of `contains_sequence` so that
`erase_current_line` can be checked against it. -/
def erase_line_by_spec (buffer : List Char) : List Char :=
  if buffer.length < 2 then
    []
  else if buffer.drop (buffer.length - 2) = ['\r', '\n'] then
    buffer
  else
    erase_line_by_spec buffer.dropLast
termination_by buffer.length
decreasing_by
  simp [List.length_dropLast]
  omega

/-! ## Helper lemmas: the sequence matcher -/

/-- The inner matching loop succeeds at offset `start` exactly when the slice
of `haystack` starting there begins with `needle`. -/
theorem sequence_matches_at_iff {α : Type} [DecidableEq α]
    (haystack needle : List α) (start : Nat) :
    sequence_matches_at haystack needle start = true ↔
      (haystack.drop start).take needle.length = needle := by
  unfold sequence_matches_at
  rw [List.all_eq_true]
  constructor
  · intro hall
    apply List.ext_getElem?
    intro n
    rw [List.getElem?_take]
    by_cases hn : n < needle.length
    · rw [if_pos hn, List.getElem?_drop, Nat.add_comm start n]
      have hmem := hall n (List.mem_range.mpr hn)
      simpa [beq_iff_eq] using hmem
    · rw [if_neg hn]
      exact (List.getElem?_eq_none (Nat.not_lt.mp hn)).symm
  · intro htake i hmem
    have hi := List.mem_range.mp hmem
    have hcong := congrArg (fun l => l[i]?) htake
    simp only [List.getElem?_take, if_pos hi, List.getElem?_drop] at hcong
    rw [beq_iff_eq, Nat.add_comm i start]
    exact hcong

/-- `contains_sequence` is true exactly when the haystack is non-empty and the
needle occurs as a contiguous slice. -/
theorem contains_sequence_iff {α : Type} [DecidableEq α] (haystack needle : List α) :
    contains_sequence haystack needle = true ↔
      haystack ≠ [] ∧ ∃ s t, haystack = s ++ needle ++ t := by
  by_cases hgt : needle.length > haystack.length
  · have hfalse : contains_sequence haystack needle = false := by
      unfold contains_sequence
      rw [if_pos hgt]
    rw [hfalse]
    simp only [Bool.false_eq_true, false_iff, not_and]
    rintro hne ⟨s, t, rfl⟩
    simp [List.length_append] at hgt
    omega
  · by_cases hnil : haystack.length = 0
    · have hfalse : contains_sequence haystack needle = false := by
        unfold contains_sequence
        rw [if_neg hgt, if_pos hnil]
      rw [hfalse]
      simp only [Bool.false_eq_true, false_iff, not_and]
      intro hne
      exact absurd (List.length_eq_zero.mp hnil) hne
    · have heq : contains_sequence haystack needle =
          (List.range (haystack.length - needle.length + 1)).any fun start =>
            sequence_matches_at haystack needle start := by
        unfold contains_sequence
        rw [if_neg hgt, if_neg hnil]
      rw [heq, List.any_eq_true]
      constructor
      · rintro ⟨start, -, hmatch⟩
        refine ⟨fun h => hnil (by simp [h]), haystack.take start,
          haystack.drop (start + needle.length), ?_⟩
        have htake := (sequence_matches_at_iff haystack needle start).mp hmatch
        calc haystack
            = haystack.take start ++ haystack.drop start :=
              (List.take_append_drop start haystack).symm
          _ = haystack.take start ++ ((haystack.drop start).take needle.length
                ++ (haystack.drop start).drop needle.length) := by
              rw [List.take_append_drop, List.take_append_drop, List.take_append_drop]
          _ = haystack.take start ++ needle ++ haystack.drop (start + needle.length) := by
              rw [htake, List.drop_drop, List.append_assoc]
      · rintro ⟨hne, s, t, hdecomp⟩
        subst hdecomp
        refine ⟨s.length, ?_, ?_⟩
        · rw [List.mem_range]
          simp [List.length_append] at hgt ⊢
          omega
        · rw [sequence_matches_at_iff, List.append_assoc, List.drop_left, List.take_left]

/-- On a two-element haystack and a two-element needle, `contains_sequence` is
plain equality. -/
theorem contains_sequence_pair {α : Type} [DecidableEq α] (x y c d : α) :
    contains_sequence [x, y] [c, d] = true ↔ x = c ∧ y = d := by
  rw [contains_sequence_iff]
  constructor
  · rintro ⟨-, s, t, heq⟩
    have hl := congrArg List.length heq
    simp [List.length_append] at hl
    have hs : s = [] := List.length_eq_zero.mp (by omega)
    have ht : t = [] := List.length_eq_zero.mp (by omega)
    subst hs
    subst ht
    simp at heq
    exact ⟨heq.1, heq.2⟩
  · rintro ⟨rfl, rfl⟩
    exact ⟨by simp, [], [], by simp⟩

/-! ## Helper lemmas: line erase -/

/-- One unfolding of `erase_current_line`, with its local `start_index`
substituted. -/
theorem erase_current_line_step (buffer : List Char) :
    erase_current_line buffer =
      if buffer.length < 2 then []
      else if contains_sequence (buffer.drop (buffer.length - 2)) CHARS_LINE_BREAK = true
        then buffer
        else erase_current_line buffer.dropLast := by
  rw [erase_current_line.eq_def]

/-- For a buffer of at least two characters, the source's
`contains_sequence` test on the final two-character slice is just equality
with the CR LF pair. -/
theorem contains_last_two_iff (buffer : List Char) (h2 : ¬ buffer.length < 2) :
    contains_sequence (buffer.drop (buffer.length - 2)) CHARS_LINE_BREAK = true ↔
      buffer.drop (buffer.length - 2) = ['\r', '\n'] := by
  obtain ⟨x, y, hxy⟩ := List.length_eq_two.mp
    (by rw [List.length_drop]; omega : (buffer.drop (buffer.length - 2)).length = 2)
  rw [hxy]
  unfold CHARS_LINE_BREAK
  rw [contains_sequence_pair]
  simp

/-- `erase_current_line` agrees with the specification-level line erase. -/
theorem erase_current_line_eq_spec (buffer : List Char) :
    erase_current_line buffer = erase_line_by_spec buffer := by
  have H : ∀ (n : Nat) (buffer : List Char), buffer.length = n →
      erase_current_line buffer = erase_line_by_spec buffer := by
    intro n
    induction n using Nat.strong_induction_on with
    | _ n ih =>
      intro buffer hlen
      rw [erase_current_line_step, erase_line_by_spec.eq_def]
      by_cases h2 : buffer.length < 2
      · rw [if_pos h2, if_pos h2]
      · rw [if_neg h2, if_neg h2]
        by_cases hcr : buffer.drop (buffer.length - 2) = ['\r', '\n']
        · rw [if_pos ((contains_last_two_iff buffer h2).mpr hcr), if_pos hcr]
        · rw [if_neg (fun hc => hcr ((contains_last_two_iff buffer h2).mp hc)), if_neg hcr]
          exact ih (buffer.length - 1) (by omega) buffer.dropLast
            (by rw [List.length_dropLast])
  exact H buffer.length buffer rfl

/-- A buffer that already ends in CR LF is left unchanged by line erase. -/
theorem erase_current_line_of_crlf_suffix (s : List Char) :
    erase_current_line (s ++ ['\r', '\n']) = s ++ ['\r', '\n'] := by
  have hlen : (s ++ ['\r', '\n']).length = s.length + 2 := by simp
  have hdrop : (s ++ ['\r', '\n']).drop ((s ++ ['\r', '\n']).length - 2) = ['\r', '\n'] := by
    rw [hlen, Nat.add_sub_cancel, List.drop_left]
  rw [erase_current_line_step, if_neg (by omega), hdrop,
    if_pos (by decide : contains_sequence ['\r', '\n'] CHARS_LINE_BREAK = true)]

/-- The result of `erase_current_line` is either empty or ends in CR LF. -/
theorem erase_current_line_shape (buffer : List Char) :
    erase_current_line buffer = [] ∨
      ∃ s, erase_current_line buffer = s ++ ['\r', '\n'] := by
  have H : ∀ (n : Nat) (buffer : List Char), buffer.length = n →
      erase_current_line buffer = [] ∨
        ∃ s, erase_current_line buffer = s ++ ['\r', '\n'] := by
    intro n
    induction n using Nat.strong_induction_on with
    | _ n ih =>
      intro buffer hlen
      by_cases h2 : buffer.length < 2
      · left
        rw [erase_current_line_step, if_pos h2]
      · by_cases hcr : buffer.drop (buffer.length - 2) = ['\r', '\n']
        · right
          refine ⟨buffer.take (buffer.length - 2), ?_⟩
          rw [erase_current_line_step, if_neg h2,
            if_pos ((contains_last_two_iff buffer h2).mpr hcr)]
          conv_lhs => rw [← List.take_append_drop (buffer.length - 2) buffer, hcr]
        · rw [erase_current_line_step, if_neg h2,
            if_neg (fun hc => hcr ((contains_last_two_iff buffer h2).mp hc))]
          exact ih (buffer.length - 1) (by omega) buffer.dropLast
            (by rw [List.length_dropLast])
  exact H buffer.length buffer rfl

/-! ## Helper lemmas: connection loops -/

/-- In `handle_client` (src/main.rs), as long as every read fills the whole
100-byte buffer, once the accumulated message passes 4096 bytes the loop ends
in the buffer-overflow abort. -/
theorem read_client_message_overflow (reads : List (Option (List Nat))) :
    ∀ message : List Nat,
      (∀ c ∈ reads, Option.map List.length c = some 100) →
      message.length ≤ 4096 →
      4096 < message.length + 100 * reads.length →
      read_client_message reads message = MessageReadResult.overflow := by
  induction reads with
  | nil =>
      intro message _ hb ht
      simp at ht
      omega
  | cons c rest ih =>
      intro message hfull hb ht
      obtain ⟨chunk, rfl⟩ : ∃ chunk, c = some chunk := by
        cases c with
        | none => simpa using hfull none (by simp)
        | some chunk => exact ⟨chunk, rfl⟩
      have hchunk : chunk.length = 100 := by simpa using hfull (some chunk) (by simp)
      have hlen : (message ++ chunk).length = message.length + 100 := by
        simp [hchunk]
      simp only [read_client_message]
      rw [if_neg (by omega : ¬ chunk.length < 100)]
      simp only [List.length_cons] at ht
      by_cases hover : (message ++ chunk).length > 4096
      · rw [if_pos hover]
      · rw [if_neg hover]
        exact ih (message ++ chunk) (fun d hd => hfull d (by simp [hd])) (by omega) (by omega)

/-- The per-connection loop of `create_tcp_server` (src/tcp.rs) can only end
by peer close, read failure, write failure, or by the read trace running out:
it has no overflow abort, whatever the handler and however much data is
read. -/
theorem tcp_client_loop_no_overflow {σ : Type}
    (accept : σ → List Nat → σ × Option (List Nat)) (write_ok : List Nat → Bool) :
    ∀ (reads : List (Option (List Nat))) (stream_handler : σ),
      (tcp_client_loop accept write_ok reads stream_handler).2 ∈
        [TcpLoopEnd.peerClosed, TcpLoopEnd.readFailed, TcpLoopEnd.writeFailed,
         TcpLoopEnd.starved] := by
  intro reads
  induction reads with
  | nil => intro stream_handler; simp [tcp_client_loop]
  | cons c rest ih =>
      intro stream_handler
      cases c with
      | none => simp [tcp_client_loop]
      | some chunk =>
          simp only [tcp_client_loop]
          by_cases h0 : chunk.length = 0
          · simp [h0]
          · rw [if_neg h0]
            cases hstep : (accept stream_handler chunk).2 with
            | some answer =>
                by_cases hw : write_ok answer
                · simp only [hstep, hw, if_pos]
                  simpa using ih (accept stream_handler chunk).1
                · simp [hstep, hw]
            | none =>
                simp only [hstep]
                exact ih (accept stream_handler chunk).1

/-! ## Helper lemmas: stepping the acceptance-layer loop -/

/-- A non-echoing idle session with an empty data buffer absorbs any number of
erase-character bytes (127) without changing state or producing output. -/
theorem run_bytes_replicate_erase (n : Nat) :
    run_bytes TelnetSession.create (List.replicate n 127)
      = (TelnetSession.create, []) := by
  induction n with
  | zero => rfl
  | succ n ih =>
      rw [List.replicate_succ]
      simp [TelnetSession.create, run_bytes, update_session, update_session_idle, CHAR_IAC,
        CHAR_DELETE, CHAR_BACK_SPACE, CHAR_ERASE_CHARACTER] at ih ⊢
      simp [ih]

/-- `accept_data` on a fresh session fed only erase-character bytes returns the
session unchanged with no response. -/
theorem accept_data_create_replicate_erase (n : Nat) :
    accept_data TelnetSession.create (List.replicate n 127)
      = (TelnetSession.create, none) := by
  show (if (run_bytes TelnetSession.create (List.replicate n 127)).2 = []
        then ((run_bytes TelnetSession.create (List.replicate n 127)).1, none)
        else ((run_bytes TelnetSession.create (List.replicate n 127)).1,
              some (run_bytes TelnetSession.create (List.replicate n 127)).2))
      = (TelnetSession.create, none)
  rw [run_bytes_replicate_erase]
  rfl

/-- Stepping the `create_tcp_server` loop over a non-empty chunk that the
handler absorbs silently. -/
theorem tcp_client_loop_cons_none {σ : Type}
    (accept : σ → List Nat → σ × Option (List Nat)) (write_ok : List Nat → Bool)
    (c : List Nat) (reads : List (Option (List Nat))) (s s' : σ)
    (hne : ¬ c.length = 0) (hacc : accept s c = (s', none)) :
    tcp_client_loop accept write_ok (some c :: reads) s
      = tcp_client_loop accept write_ok reads s' := by
  simp only [tcp_client_loop, hacc]
  rw [if_neg hne]

/-- The `create_tcp_server` loop ends with `peerClosed` on a zero-byte read. -/
theorem tcp_client_loop_close {σ : Type}
    (accept : σ → List Nat → σ × Option (List Nat)) (write_ok : List Nat → Bool)
    (reads : List (Option (List Nat))) (s : σ) :
    tcp_client_loop accept write_ok (some [] :: reads) s = ([], TcpLoopEnd.peerClosed) := by
  simp [tcp_client_loop]

/-! ## The claims -/

/-- Claim C1: feeding a fresh session (Idle, echo off) the bytes
`[255, 253, 1]` (IAC DO ECHO) answers `[255, 251, 1]` (IAC WILL ECHO) and
turns echoing on; a following byte `65` is appended to the data buffer as
`'A'` and echoed back as `[65]`. -/
theorem C1_do_echo_round_trip :
    accept_data TelnetSession.create [255, 253, 1]
      = ({ data := [], stream := [], state := TelnetState.Idle, is_echoing := true },
         some [255, 251, 1])
    ∧ accept_data { data := [], stream := [], state := TelnetState.Idle, is_echoing := true }
        [65]
      = ({ data := ['A'], stream := [], state := TelnetState.Idle, is_echoing := true },
         some [65]) := by
  decide

/-- Claim C2: `contains_sequence haystack needle` is true exactly when some
contiguous slice of `haystack` equals `needle`, except that an empty haystack
always gives `false` (so `contains_sequence [] [] = false`), and a needle
longer than the haystack gives `false`. -/
theorem C2_contains_sequence_spec :
    ∀ {α : Type} [DecidableEq α] (haystack needle : List α),
      (contains_sequence haystack needle = true ↔
        haystack ≠ [] ∧ ∃ s t, haystack = s ++ needle ++ t)
      ∧ contains_sequence ([] : List α) ([] : List α) = false
      ∧ (needle.length > haystack.length → contains_sequence haystack needle = false) := by
  intro α inst haystack needle
  refine ⟨contains_sequence_iff haystack needle, ?_, ?_⟩
  · have h := contains_sequence_iff ([] : List α) ([] : List α)
    simp at h
    exact h
  · intro hgt
    unfold contains_sequence
    rw [if_pos hgt]

/-- Witness for C2: a needle longer than the haystack is not contained. -/
theorem C2_witness : contains_sequence ([1] : List Nat) [1, 2] = false :=
  (C2_contains_sequence_spec ([1] : List Nat) [1, 2]).2.2 (by decide)

/-- Claim C3 is corrected by `C3_overflow_in_handle_client_only`; this is the
counterexample to the claim as stated: the per-connection loop of
`create_tcp_server` (src/tcp.rs), driving the real `TelnetSession` handler,
is fed 8192 bytes of unbroken input (two full 4096-byte reads) followed by a
peer close, and ends with `peerClosed` — it is never shut down with an
overflow condition. -/
theorem C3_counterexample :
    (tcp_client_loop (fun session data => accept_data session data) (fun _ => true)
        [some (List.replicate 4096 127), some (List.replicate 4096 127), some []]
        TelnetSession.create).2
      = TcpLoopEnd.peerClosed := by
  rw [tcp_client_loop_cons_none _ _ _ _ _ _ (by rw [List.length_replicate]; decide)
      (accept_data_create_replicate_erase 4096),
    tcp_client_loop_cons_none _ _ _ _ _ _ (by rw [List.length_replicate]; decide)
      (accept_data_create_replicate_erase 4096),
    tcp_client_loop_close]

/-- Claim C3 (amended): the 4096-byte overflow abort lives in `handle_client`
(src/main.rs), not in `create_tcp_server` (src/tcp.rs).  First part: in
`handle_client`, while every read fills the full 100-byte buffer, a message
accumulating past 4096 bytes makes the loop end in the buffer-overflow abort
(connection shutdown plus an out-of-memory error).  Second part: the
`create_tcp_server` per-connection loop can only end by peer close, read
failure, write failure or trace exhaustion — never by overflow. -/
theorem C3_overflow_in_handle_client_only :
    (∀ (reads : List (Option (List Nat))) (message : List Nat),
        (∀ c ∈ reads, Option.map List.length c = some 100) →
        message.length ≤ 4096 →
        4096 < message.length + 100 * reads.length →
        read_client_message reads message = MessageReadResult.overflow)
    ∧ (∀ {σ : Type} (accept : σ → List Nat → σ × Option (List Nat))
        (write_ok : List Nat → Bool) (reads : List (Option (List Nat)))
        (stream_handler : σ),
        (tcp_client_loop accept write_ok reads stream_handler).2 ∈
          [TcpLoopEnd.peerClosed, TcpLoopEnd.readFailed, TcpLoopEnd.writeFailed,
           TcpLoopEnd.starved]) :=
  ⟨fun reads => read_client_message_overflow reads,
   fun accept write_ok reads stream_handler =>
     tcp_client_loop_no_overflow accept write_ok reads stream_handler⟩

/-- Witness for the amended C3: forty-one consecutive full 100-byte reads
(4100 bytes, no short read in between) drive `handle_client` into the
overflow abort. -/
theorem C3_witness :
    read_client_message (List.replicate 41 (some (List.replicate 100 65))) []
      = MessageReadResult.overflow :=
  C3_overflow_in_handle_client_only.1 (List.replicate 41 (some (List.replicate 100 65))) []
    (by
      intro c hc
      rw [List.mem_replicate] at hc
      rw [hc.2]
      simp)
    (by simp)
    (by simp)

/-- Claim C4: `erase_current_line` removes trailing characters until the last
two are exactly CR, LF (kept), clearing the buffer once fewer than two
characters remain; in particular it takes
`['a','b','c','\r','\n','d','e','f']` to `['a','b','c','\r','\n']` and
`['a','b','c']` to `[]`. -/
theorem C4_erase_line_spec :
    (∀ buffer : List Char, erase_current_line buffer = erase_line_by_spec buffer)
    ∧ erase_current_line ['a', 'b', 'c', '\r', '\n', 'd', 'e', 'f']
        = ['a', 'b', 'c', '\r', '\n']
    ∧ erase_current_line ['a', 'b', 'c'] = [] := by
  refine ⟨erase_current_line_eq_spec, ?_, ?_⟩
  · simp +decide [erase_current_line, contains_sequence, sequence_matches_at, CHARS_LINE_BREAK]
  · simp +decide [erase_current_line, contains_sequence, sequence_matches_at, CHARS_LINE_BREAK]

/-- Claim C5: feeding `[255, 254, 1]` (IAC DONT ECHO) to an echoing idle
session answers `[255, 252, 1]` (IAC WONT ECHO) and disables echoing; and in
the `CommandDont` state every option byte is answered with
`[255, 252, option]`, returning to `Idle`, with `is_echoing` touched only
when the option is ECHO (1). -/
theorem C5_dont_echo :
    (∀ data : List Char,
        accept_data { data := data, stream := [], state := TelnetState.Idle, is_echoing := true } [255, 254, 1]
          = ({ data := data, stream := [], state := TelnetState.Idle, is_echoing := false },
             some [255, 252, 1]))
    ∧ (∀ (session : TelnetSession) (option_byte : Nat),
        update_session_dont session option_byte
          = ({ session with
                state := TelnetState.Idle,
                is_echoing := if option_byte = 1 then false else session.is_echoing },
             some [255, 252, option_byte])) := by
  constructor
  · intro data
    simp [accept_data, run_bytes, update_session, update_session_idle,
      update_session_command, update_session_dont, CHAR_IAC, CHAR_DONT, CHAR_ECHO,
      CHAR_WONT, CHAR_DELETE, CHAR_BACK_SPACE, CHAR_ERASE_CHARACTER, CHAR_ERASE_LINE,
      CHAR_ESCAPE, CHAR_WILL, CHAR_DO, CHAR_SUB_NEGOTIATION]
  · intro session option_byte
    by_cases h : option_byte = 1 <;>
      simp [update_session_dont, CHAR_ECHO, CHAR_IAC, CHAR_WONT, h]

/-- Claim C6: a DO request for any unsupported option (anything but ECHO = 1)
is answered with the explicit refusal `[255, 252, option]` and the session
returns to `Idle` with no other change; e.g. `[255, 253, 99]` yields
`[255, 252, 99]`. -/
theorem C6_do_refusal :
    (∀ (session : TelnetSession) (option_byte : Nat), option_byte ≠ 1 →
        update_session_do session option_byte
          = ({ session with state := TelnetState.Idle }, some [255, 252, option_byte]))
    ∧ accept_data TelnetSession.create [255, 253, 99]
        = ({ data := [], stream := [], state := TelnetState.Idle, is_echoing := false },
           some [255, 252, 99]) := by
  constructor
  · intro session option_byte h
    simp [update_session_do, CHAR_ECHO, CHAR_IAC, CHAR_WONT, h]
  · decide

/-- Witness for C6: the refusal at the concrete unsupported option 99. -/
theorem C6_witness :
    update_session_do TelnetSession.create 99
      = ({ TelnetSession.create with state := TelnetState.Idle }, some [255, 252, 99]) :=
  C6_do_refusal.1 TelnetSession.create 99 (by decide)

/-- Claim C7: in the `Command` state, any byte other than 251, 252, 253, 254
and 250 leaves the session completely unchanged (still in `Command`, no
response, data and echo flag untouched); from `Command` no single byte ever
reaches `Idle` directly. -/
theorem C7_unknown_command_nonfatal :
    (∀ (session : TelnetSession) (next : Nat),
        next ∉ [250, 251, 252, 253, 254] →
        update_session_command session next = (session, none))
    ∧ (∀ (session : TelnetSession) (next : Nat), session.state = TelnetState.Command →
        (update_session_command session next).1.state ≠ TelnetState.Idle) := by
  constructor
  · intro session next h
    simp only [List.mem_cons, List.not_mem_nil, or_false, not_or] at h
    obtain ⟨h250, h251, h252, h253, h254⟩ := h
    simp [update_session_command, CHAR_WILL, CHAR_WONT, CHAR_DO, CHAR_DONT,
      CHAR_SUB_NEGOTIATION, h250, h251, h252, h253, h254]
  · intro session next hstate
    unfold update_session_command
    split_ifs <;> simp [hstate]

/-- Witness for C7: byte 0 in the `Command` state is a no-op and does not
reach `Idle`. -/
theorem C7_witness :
    update_session_command
        { data := [], stream := [], state := TelnetState.Command, is_echoing := false } 0
      = ({ data := [], stream := [], state := TelnetState.Command, is_echoing := false },
         none)
    ∧ (update_session_command
        { data := [], stream := [], state := TelnetState.Command, is_echoing := false }
        0).1.state ≠ TelnetState.Idle :=
  ⟨C7_unknown_command_nonfatal.1 _ 0 (by decide),
   C7_unknown_command_nonfatal.2 _ 0 rfl⟩

/-- Claim C8: the full sub-negotiation sequence `[255, 250, 34, 1, 255, 240]`
produces no output and leaves the data buffer untouched; in the
`SubNegotiation` state every byte is discarded without response, returning to
`Idle` exactly on byte 240. -/
theorem C8_sub_negotiation_silent :
    (∀ (data : List Char) (echo : Bool),
        accept_data { data := data, stream := [], state := TelnetState.Idle, is_echoing := echo } [255, 250, 34, 1, 255, 240]
          = ({ data := data, stream := [], state := TelnetState.Idle, is_echoing := echo },
             none))
    ∧ (∀ (session : TelnetSession) (next : Nat),
        update_session_sub_negotiation session next
          = (if next = 240 then { session with state := TelnetState.Idle } else session,
             none)) := by
  constructor
  · intro data echo
    simp [accept_data, run_bytes, update_session, update_session_idle,
      update_session_command, update_session_sub_negotiation, CHAR_IAC, CHAR_DONT,
      CHAR_ECHO, CHAR_WONT, CHAR_DELETE, CHAR_BACK_SPACE, CHAR_ERASE_CHARACTER,
      CHAR_ERASE_LINE, CHAR_ESCAPE, CHAR_WILL, CHAR_DO, CHAR_SUB_NEGOTIATION,
      CHAR_SUB_NEGOTIATION_END]
  · intro session next
    by_cases h : next = 240 <;>
      simp [update_session_sub_negotiation, CHAR_SUB_NEGOTIATION_END, h]

/-- Claim C9: line erase is idempotent — any buffer already ending in CR, LF,
and the empty buffer, is left unchanged, and applying `erase_current_line`
twice equals applying it once. -/
theorem C9_erase_line_idempotent :
    ∀ buffer : List Char,
      ((buffer = [] ∨ ∃ s, buffer = s ++ ['\r', '\n']) →
        erase_current_line buffer = buffer)
      ∧ erase_current_line (erase_current_line buffer) = erase_current_line buffer := by
  intro buffer
  constructor
  · rintro (rfl | ⟨s, rfl⟩)
    · simp [erase_current_line]
    · exact erase_current_line_of_crlf_suffix s
  · rcases erase_current_line_shape buffer with h | ⟨s, hs⟩
    · rw [h]
      simp [erase_current_line]
    · rw [hs]
      exact erase_current_line_of_crlf_suffix s

/-- Witness for C9: a buffer that is exactly CR LF is left unchanged. -/
theorem C9_witness : erase_current_line ['\r', '\n'] = ['\r', '\n'] :=
  (C9_erase_line_idempotent ['\r', '\n']).1 (Or.inr ⟨[], rfl⟩)

/-- Claim C10: an erase-character byte (127, 8 or 247) in `Idle` with an
empty data buffer is safe — the buffer stays empty — and when echoing is on
the fake-backspace response `[8, 32, 8]` is still emitted even though nothing
was erased. -/
theorem C10_erase_char_empty_buffer_safe :
    ∀ (echo : Bool) (stream : List Nat) (next : Nat),
      next = 127 ∨ next = 8 ∨ next = 247 →
      update_session_idle
          { data := [], stream := stream, state := TelnetState.Idle, is_echoing := echo }
          next
        = ({ data := [], stream := stream, state := TelnetState.Idle, is_echoing := echo },
           if echo then some [8, 32, 8] else none) := by
  intro echo stream next h
  rcases h with rfl | rfl | rfl <;> cases echo <;>
    simp [update_session_idle, CHAR_IAC, CHAR_DELETE, CHAR_BACK_SPACE,
      CHAR_ERASE_CHARACTER]

/-- Witness for C10: byte 127 on an echoing session with an empty buffer. -/
theorem C10_witness :
    update_session_idle
        { data := [], stream := [], state := TelnetState.Idle, is_echoing := true } 127
      = ({ data := [], stream := [], state := TelnetState.Idle, is_echoing := true },
         some [8, 32, 8]) := by
  simpa using C10_erase_char_empty_buffer_safe true [] 127 (Or.inl rfl)
